import Mathlib

/-!
Verification of the acoustics simulation core (`acoustics.cpp`).

The C++ core is shallowly embedded here: single-precision floats are
idealised as real numbers `ℝ`, `std::array<float, 6>` becomes `Fin 6 → ℝ`,
`std::vector<float>` becomes `List ℝ`, C++ `int` becomes `ℤ`, and the
`size_t` arithmetic of `FastConvolution::convolve` is kept explicit with
`% 2 ^ 64` because one property under study is precisely its wrap-around.
Each definition mirrors the corresponding C++ entity and keeps its name.
-/

namespace Acoustics

noncomputable section

/-- Translation of `struct Vector3` (three single-precision components,
idealised as reals). -/
structure Vector3 where
  x : ℝ
  y : ℝ
  z : ℝ
deriving DecidableEq

/-- Componentwise addition, from `Vector3::operator+`. -/
instance : Add Vector3 :=
  ⟨fun a b => ⟨a.x + b.x, a.y + b.y, a.z + b.z⟩⟩

/-- Componentwise subtraction, from `Vector3::operator-`. -/
instance : Sub Vector3 :=
  ⟨fun a b => ⟨a.x - b.x, a.y - b.y, a.z - b.z⟩⟩

/-- Scalar scale, from `Vector3::operator*(float)`. -/
def Vector3.smul (v : Vector3) (s : ℝ) : Vector3 :=
  ⟨v.x * s, v.y * s, v.z * s⟩

/-- Dot product, from `Vector3::dot`. -/
def Vector3.dot (a b : Vector3) : ℝ :=
  a.x * b.x + a.y * b.y + a.z * b.z

/-- Cross product, from `Vector3::cross`. -/
def Vector3.cross (a b : Vector3) : Vector3 :=
  ⟨a.y * b.z - a.z * b.y, a.z * b.x - a.x * b.z, a.x * b.y - a.y * b.x⟩

/-- Euclidean norm, from `Vector3::length` (`std::sqrt` of the sum of
squares). -/
def Vector3.length (v : Vector3) : ℝ :=
  Real.sqrt (v.x * v.x + v.y * v.y + v.z * v.z)

/-- Translation of `struct MaterialProperties`.  The two coefficient arrays
are indexed by the six octave bands (125/250/500/1000/2000/4000 Hz). -/
structure MaterialProperties where
  name : String
  absorptionCoeff : Fin 6 → ℝ
  reflectionCoeff : Fin 6 → ℝ
  diffusionCoeff : ℝ
  density : ℝ
  speedOfSound : ℝ
  impedance : ℝ

/-- The `MaterialProperties` default constructor: empty name, absorption
filled with 0.1, reflection filled with 0.9, diffusion 0.5, density 1,
speed of sound 343, impedance 413. -/
def defaultMaterialProperties : MaterialProperties :=
  { name := ""
    absorptionCoeff := fun _ => 0.1
    reflectionCoeff := fun _ => 0.9
    diffusionCoeff := 0.5
    density := 1
    speedOfSound := 343
    impedance := 413 }

/-- The `"concrete"` profile installed by
`MaterialDatabase::initializeMaterials`. -/
def concreteMat : MaterialProperties :=
  { name := "Concrete"
    absorptionCoeff := ![0.01, 0.01, 0.02, 0.02, 0.03, 0.04]
    reflectionCoeff := ![0.99, 0.99, 0.98, 0.98, 0.97, 0.96]
    diffusionCoeff := 0.15
    density := 2400
    speedOfSound := 3200
    impedance := 7.68e6 }

/-- The `"oak"` profile installed by `MaterialDatabase::initializeMaterials`. -/
def oakMat : MaterialProperties :=
  { name := "Oak"
    absorptionCoeff := ![0.15, 0.15, 0.10, 0.10, 0.10, 0.10]
    reflectionCoeff := ![0.85, 0.85, 0.90, 0.90, 0.90, 0.90]
    diffusionCoeff := 0.3
    density := 750
    speedOfSound := 3850
    impedance := 2.89e6 }

/-- The `"carpet"` profile installed by
`MaterialDatabase::initializeMaterials`. -/
def carpetMat : MaterialProperties :=
  { name := "Carpet"
    absorptionCoeff := ![0.08, 0.24, 0.57, 0.69, 0.71, 0.73]
    reflectionCoeff := ![0.92, 0.76, 0.43, 0.31, 0.29, 0.27]
    diffusionCoeff := 0.8
    density := 200
    speedOfSound := 100
    impedance := 2.0e4 }

/-- The registry state: an association of material names to profiles,
modelling the `std::unordered_map` field `MaterialDatabase::materials_`. -/
abbrev MaterialDB := List (String × MaterialProperties)

/-- Exact-key lookup, modelling `materials_.find(name)`. -/
def dbFind (db : MaterialDB) (name : String) : Option MaterialProperties :=
  (List.find? (fun kv => kv.1 == name) db).map Prod.snd

/-- Map subscript `materials_[name]`, with the `std::unordered_map`
`operator[]` semantics: a missing key is inserted with a
default-constructed profile; the (possibly updated) map is returned
alongside the value. -/
def dbIndex (db : MaterialDB) (name : String) : MaterialProperties × MaterialDB :=
  match dbFind db name with
  | some v => (v, db)
  | none => (defaultMaterialProperties, db ++ [(name, defaultMaterialProperties)])

/-- The registry contents after `MaterialDatabase::initializeMaterials`
has run (the lazily-created singleton state). -/
def materialDatabase : MaterialDB :=
  [("concrete", concreteMat), ("oak", oakMat), ("carpet", carpetMat)]

/-- Translation of `MaterialDatabase::getMaterial`: return the stored
profile when the name is found, otherwise fall back to `materials_["concrete"]`
(whose `operator[]` access could itself mutate the map were `"concrete"`
absent, hence the returned state). -/
def getMaterial (db : MaterialDB) (name : String) : MaterialProperties × MaterialDB :=
  match dbFind db name with
  | some v => (v, db)
  | none => dbIndex db "concrete"

/-- Translation of `struct Triangle`: three vertices plus a material name. -/
structure Triangle where
  v0 : Vector3
  v1 : Vector3
  v2 : Vector3
  material : String

/-- Translation of `Triangle::center`: componentwise average of the three
vertices. -/
def Triangle.center (t : Triangle) : Vector3 :=
  ⟨(t.v0.x + t.v1.x + t.v2.x) / 3, (t.v0.y + t.v1.y + t.v2.y) / 3,
    (t.v0.z + t.v1.z + t.v2.z) / 3⟩

/-- The epsilon used by `Triangle::intersect` (`0.0000001f` in the source). -/
def EPSILON : ℝ := 0.0000001

/-- Translation of `Triangle::intersect` (Möller–Trumbore).  The C++
routine reports success through its `bool` return and writes `t`, `u`, `v`
through reference parameters; here a `true` return carrying `(t, u, v)` is
`some (t, u, v)` and a `false` return is `none`.  The branch structure and
rejection order are exactly those of the source. -/
def Triangle.intersect (tri : Triangle) (origin dir : Vector3) :
    Option (ℝ × ℝ × ℝ) :=
  let edge1 := tri.v1 - tri.v0
  let edge2 := tri.v2 - tri.v0
  let h := dir.cross edge2
  let a := edge1.dot h
  if -EPSILON < a ∧ a < EPSILON then
    none
  else
    let f := 1 / a
    let s := origin - tri.v0
    let u := f * s.dot h
    if u < 0 ∨ u > 1 then
      none
    else
      let q := s.cross edge1
      let v := f * dir.dot q
      if v < 0 ∨ u + v > 1 then
        none
      else
        let t := f * edge2.dot q
        if t > EPSILON then some (t, u, v) else none

/-- Translation of `struct Reflection` (one traced path record).  The
C++ `const Triangle*` back-pointer, null for the direct path, becomes an
`Option Triangle`. -/
structure Reflection where
  pathLength : ℝ
  reflectionPoint : Vector3
  reflectionCount : ℤ
  attenuation : Fin 6 → ℝ
  triangle : Option Triangle

/-- Translation of `class RayTracer` configuration state. -/
structure RayTracer where
  geometry : List Triangle
  speedOfSound : ℝ
  maxReflections : ℤ
  maxDistance : ℝ

/-- The six octave-band center frequencies used by
`RayTracer::calculateAttenuation`. -/
def freqs : Fin 6 → ℝ := ![125, 250, 500, 1000, 2000, 4000]

/-- Translation of `RayTracer::calculateAttenuation`: per band, the base
coefficient times the clamped inverse-distance factor times the air
absorption factor. -/
def calculateAttenuation (distance : ℝ) (reflCoeff : Fin 6 → ℝ) : Fin 6 → ℝ :=
  fun i =>
    reflCoeff i * (1 / max distance 0.1) *
      Real.exp (-0.0012 * distance * freqs i / 1000)

/-- Translation of `RayTracer::findReflectionPoint`: the source comments
that the reflection point is simplified to the triangle center. -/
def findReflectionPoint (_source _mic : Vector3) (tri : Triangle) : Vector3 :=
  tri.center

/-- Translation of `RayTracer::tracePath`: push the direct record when the
direct distance is within range, then walk the mesh in order, pushing one
first-order record per triangle whose centroid path is within range. -/
def tracePath (rt : RayTracer) (source mic : Vector3) : List Reflection :=
  let directDist := (mic - source).length
  let reflections : List Reflection :=
    if directDist ≤ rt.maxDistance then
      [{ pathLength := directDist
         reflectionPoint := source
         reflectionCount := 0
         attenuation := calculateAttenuation directDist ![1, 1, 1, 1, 1, 1]
         triangle := none }]
    else []
  rt.geometry.foldl
    (fun acc tri =>
      let refPoint := findReflectionPoint source mic tri
      let pathLen := (refPoint - source).length + (mic - refPoint).length
      if pathLen ≤ rt.maxDistance then
        let mat := (getMaterial materialDatabase tri.material).1
        acc ++
          [{ pathLength := pathLen
             reflectionPoint := refPoint
             reflectionCount := 1
             attenuation := calculateAttenuation pathLen mat.reflectionCoeff
             triangle := some tri }]
      else acc)
    reflections

/-- In-place accumulation `buf[p] += v`, the elementary step shared by the
convolution loop and the IR pulse loop.  Out-of-range writes (which would
be undefined behaviour in C++ and never occur in the verified uses) leave
the list unchanged. -/
def addAt (l : List ℝ) (p : ℕ) (v : ℝ) : List ℝ :=
  l.set p (l.getD p 0 + v)

/-- Folding a whole list of `(position, value)` accumulations over a
buffer. -/
def addAll (l : List ℝ) (pairs : List (ℕ × ℝ)) : List ℝ :=
  pairs.foldl (fun acc pv => addAt acc pv.1 pv.2) l

/-- Translation of `FastConvolution::convolve`.  The result size is
computed in `size_t`, i.e. `signal.size() + ir.size() - 1` wraps modulo
`2 ^ 64`, which the definition keeps explicit; the two nested loops then
accumulate `signal[i] * ir[j]` at index `i + j`. -/
def convolve (signal ir : List ℝ) : List ℝ :=
  let resultSize := (signal.length + ir.length + (2 ^ 64 - 1)) % 2 ^ 64
  (List.range signal.length).foldl
    (fun res i =>
      (List.range ir.length).foldl
        (fun res2 j => addAt res2 (i + j) (signal.getD i 0 * ir.getD j 0))
        res)
    (List.replicate resultSize 0)

/-- The C++ `static_cast<int>` on a real value: truncation toward zero. -/
def cInt (x : ℝ) : ℤ :=
  if 0 ≤ x then ⌊x⌋ else ⌈x⌉

/-- Translation of `class ImpulseResponseGenerator` configuration state. -/
structure ImpulseResponseGenerator where
  sampleRate : ℕ
  speedOfSound : ℝ

/-- Translation of `ImpulseResponseGenerator::generateIR`.  The buffer
holds `static_cast<int>(durationSec * sampleRate)` zero samples (`Int.toNat`
reflects that a buffer cannot hold a negative number of samples); every
record whose delay lands inside the buffer adds a decaying pulse of length
`min 64 (numSamples - delaySamples)` starting at its delay sample, with
amplitude the mean of its six band attenuations. -/
def generateIR (gen : ImpulseResponseGenerator) (reflections : List Reflection)
    (durationSec : ℝ) : List ℝ :=
  let numSamples : ℤ := cInt (durationSec * gen.sampleRate)
  reflections.foldl
    (fun ir refl =>
      let delaySec := refl.pathLength / gen.speedOfSound
      let delaySamples : ℤ := cInt (delaySec * gen.sampleRate)
      if delaySamples < numSamples then
        let amplitude := (List.ofFn refl.attenuation).sum / 6
        let pulseLen := min 64 (numSamples - delaySamples)
        (List.range pulseLen.toNat).foldl
          (fun ir2 (i : ℕ) =>
            addAt ir2 (delaySamples + (i : ℤ)).toNat
              (amplitude * Real.exp (-(i : ℝ) / (gen.sampleRate * 0.01))))
          ir
      else ir)
    (List.replicate numSamples.toNat 0)

/-- The running maximum of absolute sample values, as computed by the
normalisation loop of `AcousticSimulator::simulate` (fold of `max` over
`|sample|` starting from `0`). -/
def maxAbs (l : List ℝ) : ℝ :=
  l.foldl (fun m s => max m |s|) 0

/-- Translation of `class AcousticSimulator` state: the owned mesh copy,
the sample rate, and the two owned sub-components. -/
structure AcousticSimulator where
  geometry : List Triangle
  sampleRate : ℕ
  rayTracer : RayTracer
  irGen : ImpulseResponseGenerator

/-- The `AcousticSimulator` constructor: the ray tracer is built with the
default speed of sound 343, default `maxReflections` 10 and default
`maxDistance` 100; the IR generator with the given sample rate and default
speed of sound 343. -/
def mkSimulator (geometry : List Triangle) (sampleRate : ℕ) : AcousticSimulator :=
  { geometry := geometry
    sampleRate := sampleRate
    rayTracer :=
      { geometry := geometry, speedOfSound := 343, maxReflections := 10,
        maxDistance := 100 }
    irGen := { sampleRate := sampleRate, speedOfSound := 343 } }

/-- Translation of `AcousticSimulator::setMaxReflections`: the ray tracer
is rebuilt over the simulator's mesh copy with speed of sound 343, the new
reflection limit, and `maxDistance` 100. -/
def setMaxReflections (sim : AcousticSimulator) (maxRefl : ℤ) : AcousticSimulator :=
  { sim with
    rayTracer :=
      { geometry := sim.geometry, speedOfSound := 343,
        maxReflections := maxRefl, maxDistance := 100 } }

/-- Translation of `AcousticSimulator::simulate`: trace, synthesise the IR
with the default 2-second duration, convolve, then normalise the peak to
0.9 unless the output is silent. -/
def simulate (sim : AcousticSimulator) (sourcePos : Vector3)
    (sourceAudio : List ℝ) (micPos : Vector3) : List ℝ :=
  let reflections := tracePath sim.rayTracer sourcePos micPos
  let ir := generateIR sim.irGen reflections 2
  let output := convolve sourceAudio ir
  let maxVal := maxAbs output
  if 0 < maxVal then output.map (fun s => s / maxVal * 0.9) else output

/-- The `(index, value)` accumulations performed by the two nested loops
of `convolve`, flattened in execution order. -/
def convPairs (signal ir : List ℝ) : List (ℕ × ℝ) :=
  (List.range signal.length).flatMap fun i =>
    (List.range ir.length).map fun j => (i + j, signal.getD i 0 * ir.getD j 0)

/-- The `(index, value)` accumulations performed by the pulse loop of
`generateIR` for a single path record, given the buffer size `numSamples`. -/
def pulsePairs (gen : ImpulseResponseGenerator) (numSamples : ℤ)
    (refl : Reflection) : List (ℕ × ℝ) :=
  let delaySec := refl.pathLength / gen.speedOfSound
  let delaySamples : ℤ := cInt (delaySec * gen.sampleRate)
  if delaySamples < numSamples then
    let amplitude := (List.ofFn refl.attenuation).sum / 6
    let pulseLen := min 64 (numSamples - delaySamples)
    (List.range pulseLen.toNat).map fun (i : ℕ) =>
      ((delaySamples + (i : ℤ)).toNat,
        amplitude * Real.exp (-(i : ℝ) / (gen.sampleRate * 0.01)))
  else []

/-- The direct-path record pushed by `tracePath` when the direct distance is
within range. -/
def directRecord (source mic : Vector3) : Reflection :=
  { pathLength := (mic - source).length
    reflectionPoint := source
    reflectionCount := 0
    attenuation := calculateAttenuation (mic - source).length ![1, 1, 1, 1, 1, 1]
    triangle := none }

/-- The first-order record pushed by `tracePath` for a given triangle. -/
def triangleRecord (source mic : Vector3) (tri : Triangle) : Reflection :=
  { pathLength := (tri.center - source).length + (mic - tri.center).length
    reflectionPoint := tri.center
    reflectionCount := 1
    attenuation :=
      calculateAttenuation
        ((tri.center - source).length + (mic - tri.center).length)
        (getMaterial materialDatabase tri.material).1.reflectionCoeff
    triangle := some tri }

/-- Specification-side Möller–Trumbore test, stated with the wording of the
claim: reject when the absolute determinant satisfies `|a| < 1e-7`; then
reject on the `u` range, then on the `v` range, then accept exactly when
`t > 1e-7`, reporting `(t, u, v)`. -/
def intersectSpec (tri : Triangle) (origin dir : Vector3) :
    Option (ℝ × ℝ × ℝ) :=
  let e1 := tri.v1 - tri.v0
  let e2 := tri.v2 - tri.v0
  let h := dir.cross e2
  let a := e1.dot h
  if |a| < 1e-7 then
    none
  else
    let f := 1 / a
    let s := origin - tri.v0
    let u := f * s.dot h
    if u < 0 ∨ u > 1 then
      none
    else
      let q := s.cross e1
      let v := f * dir.dot q
      if v < 0 ∨ u + v > 1 then
        none
      else
        let t := f * e2.dot q
        if t > 1e-7 then some (t, u, v) else none

/-- Claim-side centroid: the arithmetic mean of the three vertices. -/
def centroidMean (t : Triangle) : Vector3 :=
  (t.v0 + t.v1 + t.v2).smul (1 / 3)

/-! Generic lemmas about the accumulate-at-index fold. -/

theorem addAt_length (l : List ℝ) (p : ℕ) (v : ℝ) :
    (addAt l p v).length = l.length :=
  List.length_set l p _

theorem addAll_length (pairs : List (ℕ × ℝ)) :
    ∀ l : List ℝ, (addAll l pairs).length = l.length := by
  induction pairs with
  | nil => intro l; rfl
  | cons pv rest ih =>
    intro l
    show (addAll (addAt l pv.1 pv.2) rest).length = l.length
    rw [ih, addAt_length]

theorem addAt_getD (l : List ℝ) (p : ℕ) (v : ℝ) (k : ℕ) (hp : p < l.length) :
    (addAt l p v).getD k 0 = l.getD k 0 + if p = k then v else 0 := by
  unfold addAt
  rw [List.getD_eq_getElem?_getD, List.getElem?_set, List.getD_eq_getElem?_getD]
  by_cases h : p = k
  · subst h
    simp [hp, List.getD_eq_getElem?_getD, List.getElem?_eq_getElem hp]
  · simp [h]

theorem addAll_getD (pairs : List (ℕ × ℝ)) :
    ∀ l : List ℝ, (∀ pv ∈ pairs, pv.1 < l.length) → ∀ k : ℕ,
      (addAll l pairs).getD k 0 =
        l.getD k 0 + (pairs.map (fun pv => if pv.1 = k then pv.2 else 0)).sum := by
  induction pairs with
  | nil => intro l _ k; simp [addAll]
  | cons pv rest ih =>
    intro l hpos k
    have hp : pv.1 < l.length := hpos pv (List.mem_cons_self pv rest)
    have hrest : ∀ qv ∈ rest, qv.1 < (addAt l pv.1 pv.2).length := by
      intro qv hq
      rw [addAt_length]
      exact hpos qv (List.mem_cons_of_mem pv hq)
    show (addAll (addAt l pv.1 pv.2) rest).getD k 0 = _
    rw [ih (addAt l pv.1 pv.2) hrest k, addAt_getD l pv.1 pv.2 k hp]
    simp [add_assoc]

theorem addAll_append (l : List ℝ) (xs ys : List (ℕ × ℝ)) :
    addAll l (xs ++ ys) = addAll (addAll l xs) ys :=
  List.foldl_append _ _ _ _

theorem addAll_flatMap {α : Type} (L : List α) (f : α → List (ℕ × ℝ)) :
    ∀ l : List ℝ,
      addAll l (L.flatMap f) = L.foldl (fun acc x => addAll acc (f x)) l := by
  induction L with
  | nil => intro l; rfl
  | cons x rest ih =>
    intro l
    rw [List.flatMap_cons, addAll_append, List.foldl_cons, ih]

theorem sum_flatMap {α : Type} (L : List α) (f : α → List ℝ) :
    (L.flatMap f).sum = (L.map (fun x => (f x).sum)).sum := by
  induction L with
  | nil => rfl
  | cons x rest ih =>
    rw [List.flatMap_cons, List.sum_append, List.map_cons, List.sum_cons, ih]

theorem sum_map_range (n : ℕ) (f : ℕ → ℝ) :
    ((List.range n).map f).sum = ∑ i ∈ Finset.range n, f i := by
  induction n with
  | zero => rfl
  | succ m ih =>
    rw [List.range_succ, List.map_append, List.sum_append, Finset.sum_range_succ,
      ih]
    simp

theorem sum_range_shift_ite (m d k : ℕ) (f : ℕ → ℝ) :
    (∑ i ∈ Finset.range m, if d + i = k then f i else 0) =
      if d ≤ k ∧ k - d < m then f (k - d) else 0 := by
  by_cases h : d ≤ k ∧ k - d < m
  · rw [if_pos h]
    refine Finset.sum_eq_single_of_mem (k - d) (Finset.mem_range.mpr h.2) ?_
      |>.trans ?_
    · intro i _ hne
      have : d + i ≠ k := by omega
      simp [this]
    · have : d + (k - d) = k := by omega
      simp [this]
  · rw [if_neg h]
    refine Finset.sum_eq_zero ?_
    intro i hi
    have hi2 : i < m := Finset.mem_range.mp hi
    have : d + i ≠ k := by omega
    simp [this]

/-! Characterisation of `convolve`. -/

theorem convolve_eq_addAll (signal ir : List ℝ) :
    convolve signal ir =
      addAll
        (List.replicate ((signal.length + ir.length + (2 ^ 64 - 1)) % 2 ^ 64) 0)
        (convPairs signal ir) := by
  rw [convPairs, addAll_flatMap]
  simp only [convolve, addAll, List.foldl_map]

theorem convolve_length (signal ir : List ℝ) :
    (convolve signal ir).length =
      (signal.length + ir.length + (2 ^ 64 - 1)) % 2 ^ 64 := by
  rw [convolve_eq_addAll, addAll_length, List.length_replicate]

theorem resultSize_of_le (a b : ℕ) (h1 : 1 ≤ a + b) (h2 : a + b ≤ 2 ^ 64) :
    (a + b + (2 ^ 64 - 1)) % 2 ^ 64 = a + b - 1 := by
  omega

theorem getD_replicate_zero (n k : ℕ) : (List.replicate n (0 : ℝ)).getD k 0 = 0 := by
  rw [List.getD_eq_getElem?_getD, List.getElem?_replicate]
  by_cases h : k < n <;> simp [h]

theorem convolve_getD (signal ir : List ℝ)
    (h1 : 1 ≤ signal.length + ir.length)
    (h2 : signal.length + ir.length ≤ 2 ^ 64)
    (k : ℕ) :
    (convolve signal ir).getD k 0 =
      ∑ i ∈ Finset.range signal.length, ∑ j ∈ Finset.range ir.length,
        if i + j = k then signal.getD i 0 * ir.getD j 0 else 0 := by
  have hsize := resultSize_of_le signal.length ir.length h1 h2
  have hpos : ∀ pv ∈ convPairs signal ir,
      pv.1 < (List.replicate
        ((signal.length + ir.length + (2 ^ 64 - 1)) % 2 ^ 64) (0 : ℝ)).length := by
    intro pv hpv
    rw [List.length_replicate, hsize]
    rcases List.mem_flatMap.mp hpv with ⟨i, hi, hpv2⟩
    rcases List.mem_map.mp hpv2 with ⟨j, hj, hpv3⟩
    have hi2 : i < signal.length := List.mem_range.mp hi
    have hj2 : j < ir.length := List.mem_range.mp hj
    have : pv.1 = i + j := by rw [← hpv3]
    omega
  rw [convolve_eq_addAll, addAll_getD (convPairs signal ir) _ hpos k,
    getD_replicate_zero, zero_add, convPairs, List.map_flatMap, sum_flatMap]
  simp only [List.map_map, Function.comp, sum_map_range]

theorem convolve_single_one (s : List ℝ) (h : s.length < 2 ^ 64) :
    convolve s [1] = s := by
  have hlen : (convolve s [1]).length = s.length := by
    rw [convolve_length]
    simp only [List.length_cons, List.length_nil]
    omega
  refine List.ext_getElem hlen ?_
  intro n h1 h2
  have hn : n < s.length := h2
  rw [← List.getD_eq_getElem (convolve s [1]) 0 h1, ← List.getD_eq_getElem s 0 h2]
  rw [convolve_getD s [1] (by simp) (by simp; omega) n]
  have : ∀ i ∈ Finset.range s.length,
      (∑ j ∈ Finset.range [(1 : ℝ)].length,
        if i + j = n then s.getD i 0 * [(1 : ℝ)].getD j 0 else 0) =
      (if i = n then s.getD i 0 else 0) := by
    intro i _
    simp only [List.length_cons, List.length_nil, Finset.sum_range_one,
      Nat.add_zero]
    by_cases hin : i = n <;> simp [hin]
  rw [Finset.sum_congr rfl this, Finset.sum_ite_eq' (Finset.range s.length) n
    (fun i => s.getD i 0)]
  simp [hn]

/-! Characterisation of `generateIR`. -/

theorem generateIR_eq_addAll (gen : ImpulseResponseGenerator)
    (rs : List Reflection) (D : ℝ) :
    generateIR gen rs D =
      addAll (List.replicate (cInt (D * gen.sampleRate)).toNat 0)
        (rs.flatMap (pulsePairs gen (cInt (D * gen.sampleRate)))) := by
  rw [addAll_flatMap]
  have hstep : ∀ (ir : List ℝ) (refl : Reflection),
      (if cInt (refl.pathLength / gen.speedOfSound * gen.sampleRate) <
          cInt (D * gen.sampleRate) then
        (List.range (min 64 (cInt (D * gen.sampleRate) -
            cInt (refl.pathLength / gen.speedOfSound * gen.sampleRate))).toNat).foldl
          (fun ir2 (i : ℕ) =>
            addAt ir2
              (cInt (refl.pathLength / gen.speedOfSound * gen.sampleRate) +
                (i : ℤ)).toNat
              ((List.ofFn refl.attenuation).sum / 6 *
                Real.exp (-(i : ℝ) / (gen.sampleRate * 0.01))))
          ir
      else ir) =
      addAll ir (pulsePairs gen (cInt (D * gen.sampleRate)) refl) := by
    intro ir refl
    simp only [pulsePairs]
    by_cases h : cInt (refl.pathLength / gen.speedOfSound * gen.sampleRate) <
        cInt (D * gen.sampleRate)
    · rw [if_pos h, if_pos h, addAll, List.foldl_map]
    · rw [if_neg h, if_neg h]
      rfl
  simp only [generateIR, hstep]

theorem generateIR_length (gen : ImpulseResponseGenerator)
    (rs : List Reflection) (D : ℝ) :
    (generateIR gen rs D).length = (cInt (D * gen.sampleRate)).toNat := by
  rw [generateIR_eq_addAll, addAll_length, List.length_replicate]

theorem cInt_of_nonneg {x : ℝ} (h : 0 ≤ x) : cInt x = ⌊x⌋ := by
  unfold cInt
  exact if_pos h

theorem pulse_sum (gen : ImpulseResponseGenerator) (n : ℤ) (r : Reflection)
    (hsos : 0 < gen.speedOfSound) (hr : 0 ≤ r.pathLength) (k : ℕ)
    (hk : (k : ℤ) < n) :
    ((pulsePairs gen n r).map (fun pv => if pv.1 = k then pv.2 else 0)).sum =
      if ⌊r.pathLength / gen.speedOfSound * gen.sampleRate⌋ ≤ (k : ℤ) ∧
          (k : ℤ) < ⌊r.pathLength / gen.speedOfSound * gen.sampleRate⌋ + 64 then
        (List.ofFn r.attenuation).sum / 6 *
          Real.exp
            (-(((k : ℤ) - ⌊r.pathLength / gen.speedOfSound * gen.sampleRate⌋ :
                ℤ) : ℝ) / (gen.sampleRate * 0.01))
      else 0 := by
  have hnn : (0 : ℝ) ≤ r.pathLength / gen.speedOfSound * gen.sampleRate :=
    mul_nonneg (div_nonneg hr hsos.le) (Nat.cast_nonneg _)
  have hcint : cInt (r.pathLength / gen.speedOfSound * gen.sampleRate) =
      ⌊r.pathLength / gen.speedOfSound * gen.sampleRate⌋ := cInt_of_nonneg hnn
  set delay : ℤ := ⌊r.pathLength / gen.speedOfSound * gen.sampleRate⌋ with hdelay
  have hd0 : 0 ≤ delay := Int.floor_nonneg.mpr hnn
  simp only [pulsePairs, hcint]
  by_cases hless : delay < n
  · rw [if_pos hless, List.map_map]
    have hcomp : ((fun pv : ℕ × ℝ => if pv.1 = k then pv.2 else 0) ∘ fun i : ℕ =>
        ((delay + (i : ℤ)).toNat,
          (List.ofFn r.attenuation).sum / 6 *
            Real.exp (-(i : ℝ) / (gen.sampleRate * 0.01)))) =
        fun i : ℕ =>
          if delay.toNat + i = k then
            (List.ofFn r.attenuation).sum / 6 *
              Real.exp (-(i : ℝ) / (gen.sampleRate * 0.01))
          else 0 := by
      funext i
      have : (delay + (i : ℤ)).toNat = delay.toNat + i := by omega
      simp [this]
    rw [hcomp, sum_map_range, sum_range_shift_ite]
    by_cases hc : delay ≤ (k : ℤ) ∧ (k : ℤ) < delay + 64
    · have hc2 : delay.toNat ≤ k ∧ k - delay.toNat < (min 64 (n - delay)).toNat := by
        omega
      rw [if_pos hc2, if_pos hc]
      have hcast : ((k - delay.toNat : ℕ) : ℝ) = (((k : ℤ) - delay : ℤ) : ℝ) := by
        have h1 : ((k - delay.toNat : ℕ) : ℤ) = (k : ℤ) - delay := by omega
        rw [← h1]
        push_cast
        ring
      rw [hcast]
    · have hc2 : ¬(delay.toNat ≤ k ∧ k - delay.toNat < (min 64 (n - delay)).toNat) := by
        omega
      rw [if_neg hc2, if_neg hc]
  · rw [if_neg hless]
    have hc : ¬(delay ≤ (k : ℤ) ∧ (k : ℤ) < delay + 64) := by omega
    rw [if_neg hc]
    rfl

theorem generateIR_getD (gen : ImpulseResponseGenerator) (rs : List Reflection)
    (D : ℝ) (hsos : 0 < gen.speedOfSound)
    (hlen : ∀ r ∈ rs, 0 ≤ r.pathLength) (k : ℕ)
    (hk : (k : ℤ) < cInt (D * gen.sampleRate)) :
    (generateIR gen rs D).getD k 0 =
      (rs.map (fun r =>
        if ⌊r.pathLength / gen.speedOfSound * gen.sampleRate⌋ ≤ (k : ℤ) ∧
            (k : ℤ) < ⌊r.pathLength / gen.speedOfSound * gen.sampleRate⌋ + 64 then
          (List.ofFn r.attenuation).sum / 6 *
            Real.exp
              (-(((k : ℤ) - ⌊r.pathLength / gen.speedOfSound * gen.sampleRate⌋ :
                  ℤ) : ℝ) / (gen.sampleRate * 0.01))
        else 0)).sum := by
  have hpos : ∀ pv ∈ rs.flatMap (pulsePairs gen (cInt (D * gen.sampleRate))),
      pv.1 < (List.replicate (cInt (D * gen.sampleRate)).toNat (0 : ℝ)).length := by
    intro pv hpv
    rw [List.length_replicate]
    rcases List.mem_flatMap.mp hpv with ⟨r, hr, hpv2⟩
    have hrlen := hlen r hr
    have hnn : (0 : ℝ) ≤ r.pathLength / gen.speedOfSound * gen.sampleRate :=
      mul_nonneg (div_nonneg hrlen hsos.le) (Nat.cast_nonneg _)
    have hd0 : 0 ≤ cInt (r.pathLength / gen.speedOfSound * gen.sampleRate) := by
      rw [cInt_of_nonneg hnn]
      exact Int.floor_nonneg.mpr hnn
    simp only [pulsePairs] at hpv2
    by_cases hless : cInt (r.pathLength / gen.speedOfSound * gen.sampleRate) <
        cInt (D * gen.sampleRate)
    · rw [if_pos hless] at hpv2
      rcases List.mem_map.mp hpv2 with ⟨i, hi, hpv3⟩
      have hi2 := List.mem_range.mp hi
      have : pv.1 = (cInt (r.pathLength / gen.speedOfSound * gen.sampleRate) +
          (i : ℤ)).toNat := by rw [← hpv3]
      omega
    · rw [if_neg hless] at hpv2
      exact absurd hpv2 (List.not_mem_nil pv)
  rw [generateIR_eq_addAll, addAll_getD _ _ hpos k, getD_replicate_zero,
    zero_add, List.map_flatMap, sum_flatMap]
  refine congrArg List.sum (List.map_congr_left ?_)
  intro r hr
  exact pulse_sum gen (cInt (D * gen.sampleRate)) r hsos (hlen r hr) k hk

/-! Characterisation of `tracePath` and the normalisation step. -/

theorem Vector3.add_def (a b : Vector3) :
    a + b = ⟨a.x + b.x, a.y + b.y, a.z + b.z⟩ := rfl

theorem Vector3.sub_def (a b : Vector3) :
    a - b = ⟨a.x - b.x, a.y - b.y, a.z - b.z⟩ := rfl

theorem foldl_ite_append_filterMap {α β : Type} (L : List α) (c : α → Prop)
    [DecidablePred c] (r : α → β) :
    ∀ init : List β,
      L.foldl (fun acc x => if c x then acc ++ [r x] else acc) init =
        init ++ L.filterMap (fun x => if c x then some (r x) else none) := by
  induction L with
  | nil => intro init; simp
  | cons x rest ih =>
    intro init
    rw [List.foldl_cons]
    by_cases h : c x
    · rw [if_pos h, ih (init ++ [r x])]
      have hfm : List.filterMap (fun y => if c y then some (r y) else none)
          (x :: rest) =
          r x :: List.filterMap (fun y => if c y then some (r y) else none) rest := by
        simp [List.filterMap_cons, h]
      rw [hfm, List.append_assoc]
      rfl
    · rw [if_neg h, ih init]
      have hfm : List.filterMap (fun y => if c y then some (r y) else none)
          (x :: rest) =
          List.filterMap (fun y => if c y then some (r y) else none) rest := by
        simp [List.filterMap_cons, h]
      rw [hfm]

theorem tracePath_eq (rt : RayTracer) (source mic : Vector3) :
    tracePath rt source mic =
      (if (mic - source).length ≤ rt.maxDistance then
        [directRecord source mic]
      else []) ++
      rt.geometry.filterMap (fun tri =>
        if (tri.center - source).length + (mic - tri.center).length ≤
            rt.maxDistance then
          some (triangleRecord source mic tri)
        else none) := by
  simp only [tracePath, findReflectionPoint, directRecord, triangleRecord]
  exact foldl_ite_append_filterMap rt.geometry
    (fun tri =>
      (tri.center - source).length + (mic - tri.center).length ≤ rt.maxDistance)
    (fun tri =>
      ({ pathLength := (tri.center - source).length + (mic - tri.center).length
         reflectionPoint := tri.center
         reflectionCount := 1
         attenuation :=
           calculateAttenuation
             ((tri.center - source).length + (mic - tri.center).length)
             (getMaterial materialDatabase tri.material).1.reflectionCoeff
         triangle := some tri } : Reflection)) _

theorem tracePath_indep (g : List Triangle) (sos : ℝ) (m1 m2 : ℤ) (md : ℝ)
    (source mic : Vector3) :
    tracePath ⟨g, sos, m1, md⟩ source mic =
      tracePath ⟨g, sos, m2, md⟩ source mic := rfl

theorem le_foldl_max (l : List ℝ) :
    ∀ b : ℝ, b ≤ l.foldl (fun m s => max m |s|) b := by
  induction l with
  | nil => intro b; exact le_refl b
  | cons x rest ih =>
    intro b
    exact le_trans (le_max_left b |x|) (ih (max b |x|))

theorem maxAbs_nonneg (l : List ℝ) : 0 ≤ maxAbs l :=
  le_foldl_max l 0

theorem foldl_max_abs_map_mul (c : ℝ) (l : List ℝ) :
    ∀ b : ℝ, (l.map (fun x => x * c)).foldl (fun m s => max m |s|) (b * |c|) =
      (l.foldl (fun m s => max m |s|) b) * |c| := by
  induction l with
  | nil => intro b; rfl
  | cons x rest ih =>
    intro b
    rw [List.map_cons, List.foldl_cons, List.foldl_cons, abs_mul,
      ← max_mul_of_nonneg b |x| (abs_nonneg c)]
    exact ih (max b |x|)

theorem maxAbs_map_mul (c : ℝ) (l : List ℝ) :
    maxAbs (l.map (fun x => x * c)) = maxAbs l * |c| := by
  rw [maxAbs, maxAbs]
  nth_rewrite 1 [← zero_mul |c|]
  exact foldl_max_abs_map_mul c l 0

theorem normalize_peak (out : List ℝ) (h : 0 < maxAbs out) :
    maxAbs (out.map (fun s => s / maxAbs out * 0.9)) = 0.9 := by
  have hmap : out.map (fun s => s / maxAbs out * 0.9) =
      out.map (fun x => x * (0.9 / maxAbs out)) := by
    refine List.map_congr_left ?_
    intro x _
    ring
  rw [hmap, maxAbs_map_mul, abs_of_pos (by positivity), mul_comm,
    div_mul_cancel₀ _ (ne_of_gt h)]

/-! Claim-side definitions and the claim theorems. -/

/-- C2: `Triangle::intersect` performs the Möller–Trumbore test with
exactly the claimed rejection order and epsilon `1e-7`, returns true iff
the final `t` exceeds `1e-7`, and on success reports exactly the computed
`(t, u, v)`. -/
theorem intersect_c2 (tri : Triangle) (origin dir : Vector3) :
    tri.intersect origin dir = intersectSpec tri origin dir := by
  simp only [Triangle.intersect, intersectSpec, EPSILON, abs_lt]

/-- C3: every band of the attenuation array is the base coefficient times
the clamped inverse distance times the air-absorption exponential at the
fixed center frequencies 125, 250, 500, 1000, 2000, 4000 Hz, in that
order. -/
theorem calculateAttenuation_c3 (d : ℝ) (base : Fin 6 → ℝ) (_hd : 0 ≤ d) :
    calculateAttenuation d base =
      ![base 0 * (1 / max d 0.1) * Real.exp (-0.0012 * d * 125 / 1000),
        base 1 * (1 / max d 0.1) * Real.exp (-0.0012 * d * 250 / 1000),
        base 2 * (1 / max d 0.1) * Real.exp (-0.0012 * d * 500 / 1000),
        base 3 * (1 / max d 0.1) * Real.exp (-0.0012 * d * 1000 / 1000),
        base 4 * (1 / max d 0.1) * Real.exp (-0.0012 * d * 2000 / 1000),
        base 5 * (1 / max d 0.1) * Real.exp (-0.0012 * d * 4000 / 1000)] := by
  funext i
  fin_cases i <;> rfl

/-- Witness for C3 at `d = 1` with an all-ones base array. -/
theorem calculateAttenuation_c3_witness :
    (0 : ℝ) ≤ 1 ∧
      calculateAttenuation 1 (fun _ => 1) 0 =
        1 * (1 / max (1 : ℝ) 0.1) * Real.exp (-0.0012 * 1 * 125 / 1000) := by
  refine ⟨by norm_num, ?_⟩
  rw [calculateAttenuation_c3 1 (fun _ => 1) (by norm_num)]
  simp

/-- C7 counterexample: the claim quantifies over every base coefficient
array, but with an all-zero base array both attenuations are zero, so the
strict decrease fails at `d1 = 1 < d2 = 2` even though `0.1 < d1 < d2`. -/
theorem calculateAttenuation_c7_counterexample :
    (0.1 : ℝ) < 1 ∧ (1 : ℝ) < 2 ∧
      ¬ calculateAttenuation 2 (fun _ => 0) 0 <
          calculateAttenuation 1 (fun _ => 0) 0 := by
  refine ⟨by norm_num, by norm_num, ?_⟩
  simp [calculateAttenuation]

/-- C7 amended: for a band whose base coefficient is strictly positive,
the attenuation value strictly decreases in the path length on
`(0.1, ∞)`. -/
theorem calculateAttenuation_c7_amended (base : Fin 6 → ℝ) (i : Fin 6)
    (d1 d2 : ℝ) (hbase : 0 < base i) (h1 : 0.1 < d1) (h12 : d1 < d2) :
    calculateAttenuation d2 base i < calculateAttenuation d1 base i := by
  have h2 : (0.1 : ℝ) < d2 := h1.trans h12
  have hd1 : (0 : ℝ) < d1 := lt_trans (by norm_num) h1
  have hd2 : (0 : ℝ) < d2 := lt_trans (by norm_num) h2
  have hf : (0 : ℝ) < freqs i := by fin_cases i <;> norm_num [freqs]
  have hinv : 1 / d2 < 1 / d1 := one_div_lt_one_div_of_lt hd1 h12
  have hexp : Real.exp (-0.0012 * d2 * freqs i / 1000) <
      Real.exp (-0.0012 * d1 * freqs i / 1000) := by
    apply Real.exp_lt_exp.mpr
    have hcoeff : (0 : ℝ) < 0.0012 * freqs i / 1000 := by positivity
    nlinarith
  unfold calculateAttenuation
  rw [max_eq_left h1.le, max_eq_left h2.le, mul_assoc (base i), mul_assoc (base i)]
  exact mul_lt_mul_of_pos_left
    (mul_lt_mul'' hinv hexp (one_div_nonneg.mpr hd2.le) (Real.exp_pos _).le) hbase

/-- Witness for the amended C7 at base all-ones, band 0, `d1 = 1`,
`d2 = 2`. -/
theorem calculateAttenuation_c7_witness :
    (0 : ℝ) < 1 ∧ (0.1 : ℝ) < 1 ∧ (1 : ℝ) < 2 ∧
      calculateAttenuation 2 (fun _ => 1) 0 < calculateAttenuation 1 (fun _ => 1) 0 :=
  ⟨by norm_num, by norm_num, by norm_num,
    calculateAttenuation_c7_amended (fun _ => 1) 0 1 2 (by norm_num) (by norm_num)
      (by norm_num)⟩

/-- C8: `getMaterial` never fails and never mutates the initialised
registry: a registered name yields its stored profile, an unregistered
name yields the `"concrete"` default profile, and in both cases the stored
contents are returned unchanged. -/
theorem getMaterial_c8 (name : String) :
    (getMaterial materialDatabase name).2 = materialDatabase ∧
    (∀ p, dbFind materialDatabase name = some p →
      (getMaterial materialDatabase name).1 = p) ∧
    (dbFind materialDatabase name = none →
      (getMaterial materialDatabase name).1 = concreteMat) := by
  have hconc : dbFind materialDatabase "concrete" = some concreteMat := rfl
  cases h : dbFind materialDatabase name with
  | some p =>
    refine ⟨?_, ?_, ?_⟩ <;> simp [getMaterial, h]
  | none =>
    refine ⟨?_, ?_, ?_⟩ <;> simp [getMaterial, h, dbIndex, hconc]

/-- Witness for C8: the unknown name `"steel"` resolves to the concrete
profile without touching the registry, and the known name `"oak"` resolves
to its stored profile. -/
theorem getMaterial_c8_witness :
    (getMaterial materialDatabase "steel").1 = concreteMat ∧
    (getMaterial materialDatabase "steel").2 = materialDatabase ∧
    (getMaterial materialDatabase "oak").1 = oakMat :=
  ⟨(getMaterial_c8 "steel").2.2 rfl, (getMaterial_c8 "steel").1,
    (getMaterial_c8 "oak").2.1 oakMat rfl⟩

theorem center_eq_centroidMean (t : Triangle) : t.center = centroidMean t := by
  simp only [Triangle.center, centroidMean, Vector3.add_def, Vector3.smul,
    Vector3.mk.injEq]
  refine ⟨by ring, by ring, by ring⟩

theorem vecOnes_eq : (![1, 1, 1, 1, 1, 1] : Fin 6 → ℝ) = fun _ => 1 := by
  funext i
  fin_cases i <;> rfl

/-- C1: `tracePath` returns exactly the direct record (gated by the
max-distance test, with path length the source-listener distance,
reflection count 0, reflection point the source, no triangle reference,
and an all-ones attenuation base) followed by one record per triangle in
mesh order whose centroid path length is within range (reflection count 1,
reflection point the centroid — the arithmetic mean of the vertices — a
reference to the triangle, and the material reflection coefficients as
attenuation base); nothing else, in that order. -/
theorem tracePath_c1 (rt : RayTracer) (source mic : Vector3) :
    tracePath rt source mic =
      (if (mic - source).length ≤ rt.maxDistance then
        [({ pathLength := (mic - source).length
            reflectionPoint := source
            reflectionCount := 0
            attenuation := calculateAttenuation (mic - source).length (fun _ => 1)
            triangle := none } : Reflection)]
      else []) ++
      rt.geometry.filterMap (fun tri =>
        if (centroidMean tri - source).length + (mic - centroidMean tri).length ≤
            rt.maxDistance then
          some
            ({ pathLength :=
                 (centroidMean tri - source).length +
                   (mic - centroidMean tri).length
               reflectionPoint := centroidMean tri
               reflectionCount := 1
               attenuation :=
                 calculateAttenuation
                   ((centroidMean tri - source).length +
                     (mic - centroidMean tri).length)
                   (getMaterial materialDatabase tri.material).1.reflectionCoeff
               triangle := some tri } : Reflection)
        else none) := by
  rw [tracePath_eq]
  simp only [directRecord, triangleRecord, center_eq_centroidMean, vecOnes_eq]

/-- C9: `tracePath` output does not depend on the `maxReflections`
configuration, no record of reflection order above 1 is ever produced, and
`setMaxReflections` leaves `simulate` results unchanged for a
constructor-built simulator. -/
theorem maxReflections_c9 :
    (∀ (g : List Triangle) (sos : ℝ) (m1 m2 : ℤ) (md : ℝ)
      (source mic : Vector3),
      tracePath ⟨g, sos, m1, md⟩ source mic =
        tracePath ⟨g, sos, m2, md⟩ source mic) ∧
    (∀ (rt : RayTracer) (source mic : Vector3) (r : Reflection),
      r ∈ tracePath rt source mic → r.reflectionCount ≤ 1) ∧
    (∀ (geom : List Triangle) (sr : ℕ) (m : ℤ) (sourcePos : Vector3)
      (audio : List ℝ) (micPos : Vector3),
      simulate (setMaxReflections (mkSimulator geom sr) m) sourcePos audio
          micPos =
        simulate (mkSimulator geom sr) sourcePos audio micPos) := by
  refine ⟨fun g sos m1 m2 md s l => tracePath_indep g sos m1 m2 md s l, ?_, ?_⟩
  · intro rt source mic r hr
    rw [tracePath_eq] at hr
    rcases List.mem_append.mp hr with h | h
    · by_cases hd : (mic - source).length ≤ rt.maxDistance
      · rw [if_pos hd] at h
        rw [List.mem_singleton.mp h]
        norm_num [directRecord]
      · rw [if_neg hd] at h
        exact absurd h (List.not_mem_nil r)
    · rcases List.mem_filterMap.mp h with ⟨tri, _, htri⟩
      by_cases hc : (tri.center - source).length + (mic - tri.center).length ≤
          rt.maxDistance
      · rw [if_pos hc] at htri
        injection htri with h2
        rw [← h2]
        norm_num [triangleRecord]
      · rw [if_neg hc] at htri
        exact Option.noConfusion htri
  · intro geom sr m sourcePos audio micPos
    simp only [simulate, setMaxReflections, mkSimulator]
    rw [tracePath_indep geom 343 m 10 100 sourcePos micPos]

/-- Witness for C9: on an empty mesh with coincident source and listener,
the produced direct record has reflection count at most 1. -/
theorem maxReflections_c9_witness :
    (directRecord ⟨0, 0, 0⟩ ⟨0, 0, 0⟩).reflectionCount ≤ 1 := by
  apply maxReflections_c9.2.1 ⟨[], 343, 10, 100⟩ ⟨0, 0, 0⟩ ⟨0, 0, 0⟩
  rw [tracePath_eq]
  have hdist : ((⟨0, 0, 0⟩ : Vector3) - ⟨0, 0, 0⟩).length = 0 := by
    simp [Vector3.sub_def, Vector3.length]
  rw [if_pos (le_of_eq_of_le hdist (by norm_num))]
  simp

/-- C5 counterexample: with both inputs empty the `size_t` result size
wraps around instead of realising the claimed `len(s) + len(ir) - 1`. -/
theorem convolve_c5_counterexample :
    (convolve ([] : List ℝ) ([] : List ℝ)).length ≠
      ([] : List ℝ).length + ([] : List ℝ).length - 1 := by
  rw [convolve_length]
  simp only [List.length_nil]
  omega

/-- C5 amended: provided at least one input is non-empty (and the two
lengths describe genuine `size_t` vector sizes, i.e. their sum is
representable), `convolve` returns `len(s) + len(ir) - 1` samples whose
entry `k` is the sum of `s[i] * ir[j]` over all valid `i + j = k`; and
`convolve s [1]` always returns `s` itself. -/
theorem convolve_c5_amended :
    (∀ s ir : List ℝ, 1 ≤ s.length + ir.length →
      s.length + ir.length ≤ 2 ^ 64 →
      (convolve s ir).length = s.length + ir.length - 1 ∧
      ∀ k : ℕ, (convolve s ir).getD k 0 =
        ∑ i ∈ Finset.range s.length, ∑ j ∈ Finset.range ir.length,
          if i + j = k then s.getD i 0 * ir.getD j 0 else 0) ∧
    (∀ s : List ℝ, s.length < 2 ^ 64 → convolve s [1] = s) := by
  refine ⟨fun s ir h1 h2 => ⟨?_, fun k => convolve_getD s ir h1 h2 k⟩,
    fun s h => convolve_single_one s h⟩
  rw [convolve_length, resultSize_of_le s.length ir.length h1 h2]

/-- Witness for the amended C5 on the signals `[2]` and `[3]`, and the
identity on `[2]`. -/
theorem convolve_c5_witness :
    (convolve [(2 : ℝ)] [(3 : ℝ)]).length = 1 ∧ convolve [(2 : ℝ)] [1] = [(2 : ℝ)] := by
  constructor
  · have h := (convolve_c5_amended.1 [(2 : ℝ)] [(3 : ℝ)] (by norm_num)
      (by norm_num)).1
    simpa using h
  · exact convolve_c5_amended.2 [(2 : ℝ)] (by norm_num)

/-- C10: the result size of `convolve` is computed in `size_t`, so with
two empty inputs it wraps to the maximum representable size, while the
claimed `len(s) + len(ir) - 1` formula holds whenever at least one input is
non-empty (and the sizes are representable). -/
theorem convolve_c10 :
    (convolve ([] : List ℝ) ([] : List ℝ)).length = 2 ^ 64 - 1 ∧
    (∀ s ir : List ℝ, 1 ≤ s.length + ir.length →
      s.length + ir.length ≤ 2 ^ 64 →
      (convolve s ir).length = s.length + ir.length - 1) := by
  constructor
  · rw [convolve_length]
    simp only [List.length_nil]
    omega
  · intro s ir h1 h2
    rw [convolve_length, resultSize_of_le s.length ir.length h1 h2]

/-- Witness for C10 on the one-sample signals `[1]` and `[1]`. -/
theorem convolve_c10_witness :
    (convolve [(1 : ℝ)] [(1 : ℝ)]).length = 1 := by
  have h := convolve_c10.2 [(1 : ℝ)] [(1 : ℝ)] (by norm_num) (by norm_num)
  simpa using h

/-- C4 counterexample: the claim quantifies over every duration, but at a
negative duration the returned buffer (whose length is a count of samples)
cannot have the claimed `floor(D * sampleRate)` samples, which is
negative; the C++ source casts the negative float to `int` and hands it to
the `std::vector` size constructor. -/
theorem generateIR_c4_counterexample :
    ¬ (((generateIR ⟨44100, 343⟩ [] (-1)).length : ℤ) =
        ⌊(-1 : ℝ) * ((44100 : ℕ) : ℝ)⌋) := by
  have hval : ((-1 : ℝ) * ((44100 : ℕ) : ℝ)) = ((-44100 : ℤ) : ℝ) := by
    push_cast
    ring
  have hfloor : ⌊(-1 : ℝ) * ((44100 : ℕ) : ℝ)⌋ = -44100 := by
    rw [hval, Int.floor_intCast]
  have hcint : cInt ((-1 : ℝ) * ((44100 : ℕ) : ℝ)) = -44100 := by
    unfold cInt
    rw [if_neg (by rw [hval]; norm_num), hval, Int.ceil_intCast]
  rw [hfloor, generateIR_length]
  have hsr : ((⟨44100, 343⟩ : ImpulseResponseGenerator).sampleRate : ℝ) =
      ((44100 : ℕ) : ℝ) := rfl
  rw [hsr, hcint]
  norm_num

/-- C4 amended: for a nonnegative duration, a positive speed of sound and
records with nonnegative path lengths (the data-model invariant), the
buffer has exactly `floor(D * sampleRate)` zero-initialised samples, and
each in-range sample `k` holds the sum over the records of their pulse
contribution: `mean(attenuation) * exp(-(k - delay) / (sampleRate * 0.01))`
when `delay ≤ k < delay + 64` with `delay = floor(pathLength / speedOfSound
* sampleRate)`, and nothing otherwise — added, never overwritten, with no
normalisation. -/
theorem generateIR_c4_amended (gen : ImpulseResponseGenerator)
    (records : List Reflection) (D : ℝ) (hD : 0 ≤ D)
    (hsos : 0 < gen.speedOfSound)
    (hrec : ∀ r ∈ records, 0 ≤ r.pathLength) :
    ((generateIR gen records D).length : ℤ) = ⌊D * (gen.sampleRate : ℝ)⌋ ∧
    ∀ k : ℕ, (k : ℤ) < ⌊D * (gen.sampleRate : ℝ)⌋ →
      (generateIR gen records D).getD k 0 =
        (records.map (fun r =>
          if ⌊r.pathLength / gen.speedOfSound * gen.sampleRate⌋ ≤ (k : ℤ) ∧
              (k : ℤ) <
                ⌊r.pathLength / gen.speedOfSound * gen.sampleRate⌋ + 64 then
            (List.ofFn r.attenuation).sum / 6 *
              Real.exp
                (-(((k : ℤ) -
                    ⌊r.pathLength / gen.speedOfSound * gen.sampleRate⌋ :
                    ℤ) : ℝ) / (gen.sampleRate * 0.01))
          else 0)).sum := by
  have hnn : (0 : ℝ) ≤ D * gen.sampleRate := mul_nonneg hD (Nat.cast_nonneg _)
  have hcint : cInt (D * gen.sampleRate) = ⌊D * (gen.sampleRate : ℝ)⌋ :=
    cInt_of_nonneg hnn
  have hfl : 0 ≤ ⌊D * (gen.sampleRate : ℝ)⌋ := Int.floor_nonneg.mpr hnn
  constructor
  · rw [generateIR_length, hcint, Int.toNat_of_nonneg hfl]
  · intro k hk
    exact generateIR_getD gen records D hsos hrec k (by rw [hcint]; exact hk)

/-- Witness for the amended C4: a ten-hertz generator with no records and a
one-second duration yields a ten-sample buffer. -/
theorem generateIR_c4_witness :
    (0 : ℝ) ≤ 1 ∧ (0 : ℝ) < 343 ∧
      ((generateIR ⟨10, 343⟩ [] 1).length : ℤ) = ⌊(1 : ℝ) * ((10 : ℕ) : ℝ)⌋ :=
  ⟨by norm_num, by norm_num,
    (generateIR_c4_amended ⟨10, 343⟩ [] 1 (by norm_num) (by norm_num)
      (fun r hr => absurd hr (List.not_mem_nil r))).1⟩

/-- C6: `simulate` returns the convolution output normalised: when the
peak absolute value is positive every sample is scaled by `0.9 / maxAbs`
and the resulting peak is exactly 0.9; when the peak is zero the
convolution output is returned unchanged. -/
theorem simulate_c6 (sim : AcousticSimulator) (sourcePos : Vector3)
    (audio : List ℝ) (micPos : Vector3) (out : List ℝ)
    (hout : out = convolve audio
      (generateIR sim.irGen (tracePath sim.rayTracer sourcePos micPos) 2)) :
    (0 < maxAbs out →
      simulate sim sourcePos audio micPos =
        out.map (fun s => s * (0.9 / maxAbs out)) ∧
      maxAbs (simulate sim sourcePos audio micPos) = 0.9) ∧
    (maxAbs out = 0 → simulate sim sourcePos audio micPos = out) := by
  subst hout
  constructor
  · intro hpos
    have hsim : simulate sim sourcePos audio micPos =
        (convolve audio
          (generateIR sim.irGen (tracePath sim.rayTracer sourcePos micPos)
            2)).map
          (fun s => s / maxAbs (convolve audio
            (generateIR sim.irGen (tracePath sim.rayTracer sourcePos micPos)
              2)) * 0.9) := by
      simp only [simulate]
      rw [if_pos hpos]
    refine ⟨?_, by rw [hsim]; exact normalize_peak _ hpos⟩
    rw [hsim]
    refine List.map_congr_left ?_
    intro x _
    ring
  · intro hzero
    simp only [simulate]
    rw [if_neg (by rw [hzero]; exact lt_irrefl 0)]

/-- Witness for C6: a one-hertz simulator over an empty mesh convolving an
empty signal produces a silent output, which is returned unscaled. -/
theorem simulate_c6_witness :
    simulate (mkSimulator [] 1) ⟨0, 0, 0⟩ [] ⟨0, 0, 0⟩ =
      convolve []
        (generateIR (mkSimulator [] 1).irGen
          (tracePath (mkSimulator [] 1).rayTracer ⟨0, 0, 0⟩ ⟨0, 0, 0⟩) 2) := by
  apply (simulate_c6 (mkSimulator [] 1) ⟨0, 0, 0⟩ [] ⟨0, 0, 0⟩ _ rfl).2
  have hlen : (generateIR (mkSimulator [] 1).irGen
      (tracePath (mkSimulator [] 1).rayTracer ⟨0, 0, 0⟩ ⟨0, 0, 0⟩) 2).length =
      2 := by
    rw [generateIR_length]
    have : cInt ((2 : ℝ) * (((mkSimulator [] 1).irGen.sampleRate : ℕ) : ℝ)) =
        2 := by
      unfold cInt
      have h2 : ((2 : ℝ) * (((mkSimulator [] 1).irGen.sampleRate : ℕ) : ℝ)) =
          ((2 : ℤ) : ℝ) := by
        norm_num [mkSimulator]
      rw [if_pos (by rw [h2]; norm_num), h2, Int.floor_intCast]
    rw [this]
    rfl
  have hconv : convolve []
      (generateIR (mkSimulator [] 1).irGen
        (tracePath (mkSimulator [] 1).rayTracer ⟨0, 0, 0⟩ ⟨0, 0, 0⟩) 2) =
      [0] := by
    have h1 : 1 ≤ ([] : List ℝ).length +
        (generateIR (mkSimulator [] 1).irGen
          (tracePath (mkSimulator [] 1).rayTracer ⟨0, 0, 0⟩ ⟨0, 0, 0⟩) 2).length := by
      simp [hlen]
    have h2 : ([] : List ℝ).length +
        (generateIR (mkSimulator [] 1).irGen
          (tracePath (mkSimulator [] 1).rayTracer ⟨0, 0, 0⟩ ⟨0, 0, 0⟩) 2).length ≤
        2 ^ 64 := by
      simp only [List.length_nil, hlen]
      norm_num
    refine List.ext_getElem ?_ ?_
    · rw [convolve_length]
      simp only [List.length_nil, hlen]
      norm_num
    · intro n hn1 hn2
      have hn0 : n = 0 := by
        simp only [List.length_cons, List.length_nil] at hn2
        omega
      subst hn0
      rw [← List.getD_eq_getElem _ 0 hn1, ← List.getD_eq_getElem _ 0 hn2,
        convolve_getD _ _ h1 h2 0]
      simp
  rw [hconv]
  simp [maxAbs]

end

end Acoustics
